import Mathlib

/-!
Shallow embedding of `src/junctions/junctions_extractor.cc` (regtools
`junctions extract`): the CIGAR-walking junction extractor, its QC filter
and the aggregation map, together with theorems settling the specification
claims about them.

Coordinates are modelled as `Nat` (BAM positions and CIGAR lengths are
non-negative); the C++ `int` arithmetic in comparisons is reproduced by
casting to `Int` where the source subtracts, so the comparisons agree with
the C++ ones on the whole modelled domain.
-/

namespace Regtools

/-! ### Decimal rendering (C++ `stringstream << int` for non-negative ints) -/

/-- One decimal digit character, as `operator<<` prints it. -/
def digitChar (n : Nat) : Char := Char.ofNat (48 + n)

/-- Fuel-driven decimal rendering of a natural number, most significant digit
first. Enough fuel (`n + 1`) is always supplied by `decRepr`. -/
def decReprCore : Nat → Nat → List Char
  | _, 0 => []
  | n, fuel + 1 =>
    if n < 10 then [digitChar n]
    else decReprCore (n / 10) fuel ++ [digitChar (n % 10)]

/-- Decimal rendering of a natural number as a list of characters; embeds what
`stringstream << j1.start` appends for the non-negative ints in play. -/
def decRepr (n : Nat) : List Char := decReprCore n (n + 1)

/-- Reads a digit string back into a number; used to invert `decRepr`. -/
def decVal (l : List Char) : Nat := l.foldl (fun a c => a * 10 + (c.toNat - 48)) 0

/-! ### Data model -/

/-- Modelled from the spec: the `Junction` struct lives in
`junctions_extractor.h`, which is not among the given sources. Field set and
meaning follow §3 of the spec: intron interval `start`/`end_` (the C++ field
`end`; `end` is reserved in Lean), anchor extent `thick_start`/`thick_end`,
anchor-sufficiency flags, support count, stable `name` and textual `score`.
The strand is a single character (the C++ code always stores `string(1, c)`). -/
structure Junction where
  chrom : String
  strand : Char
  start : Nat
  end_ : Nat
  thick_start : Nat
  thick_end : Nat
  read_count : Nat
  has_left_min_anchor : Bool
  has_right_min_anchor : Bool
  name : String
  score : String
deriving DecidableEq

/-- Configuration of the extractor: the three thresholds read by
`junction_qc`. They come from `atoi` on user input, hence `Int`. -/
structure ExtractorConfig where
  min_anchor_length_ : Int
  min_intron_length_ : Int
  max_intron_length_ : Int
deriving DecidableEq

/-- Modelled from the spec: the default-constructed `Junction` (its
constructor is in the missing header). Per §3 the anchor flags start false —
they become true only once QC observes a sufficient anchor — and the
count/name/score fields are placeholders overwritten on first store
insertion. -/
def defaultJunction : Junction :=
  { chrom := "", strand := '?', start := 0, end_ := 0, thick_start := 0,
    thick_end := 0, read_count := 0, has_left_min_anchor := false,
    has_right_min_anchor := false, name := "NA", score := "0" }

/-! ### The aggregation map (`map<string, Junction> junctions_`) -/

/-- The junctions map, keyed by the formatted key string. Association list
with at most one entry per key (insertion replaces in place). -/
abbrev JunctionMap := List (String × Junction)

/-- Lookup in the junctions map (`junctions_.count(key)` / `junctions_[key]`). -/
def mapFind : JunctionMap → String → Option Junction
  | [], _ => none
  | (k', v) :: rest, k => if k' = k then some v else mapFind rest k

/-- Insertion `junctions_[key] = j1`: replaces the entry at `key` when present,
otherwise appends a fresh entry. -/
def mapInsert : JunctionMap → String → Junction → JunctionMap
  | [], k, v => [(k, v)]
  | (k', v') :: rest, k, v =>
    if k' = k then (k, v) :: rest else (k', v') :: mapInsert rest k v

/-! ### QC, naming, key and merge (`junction_qc`, `get_new_junction_name`,
`add_junction`) -/

/-- Embeds `JunctionsExtractor::junction_qc` (lines 114-124): reject when the
intron length is out of bounds; otherwise flip each anchor flag to true when
the corresponding anchor meets the minimum (the flags are never reset). The
C++ takes `j1` by reference; the model returns the pass flag together with
the updated junction. -/
def junction_qc (cfg : ExtractorConfig) (j1 : Junction) : Bool × Junction :=
  if (j1.end_ : Int) - (j1.start : Int) < cfg.min_intron_length_ ∨
     (j1.end_ : Int) - (j1.start : Int) > cfg.max_intron_length_ then
    (false, j1)
  else
    (true, { j1 with
      has_left_min_anchor :=
        if (j1.start : Int) - (j1.thick_start : Int) ≥ cfg.min_anchor_length_ then
          true
        else j1.has_left_min_anchor,
      has_right_min_anchor :=
        if (j1.thick_end : Int) - (j1.end_ : Int) ≥ cfg.min_anchor_length_ then
          true
        else j1.has_right_min_anchor })

/-- Modelled from the spec: `common::num_to_str` (from the missing
`common.h`) renders the read count as decimal text for the `score` field. -/
def num_to_str (n : Nat) : String := String.mk (decRepr n)

/-- Embeds `JunctionsExtractor::get_new_junction_name` (lines 106-111):
`"JUNC" << setfill('0') << setw(8) << (size + 1)`, i.e. the 1-based ordinal
zero-padded to width 8. `size` is the current number of stored junctions. -/
def get_new_junction_name (size : Nat) : String :=
  "JUNC" ++ String.mk
    (List.replicate (8 - (decRepr (size + 1)).length) '0' ++ decRepr (size + 1))

/-- Embeds the key construction of `add_junction` (lines 135-139). The C++
reuses one `stringstream` for both numbers without clearing it, so the text
taken for `end` is actually `start`'s digits followed by `end`'s digits; the
key is `chrom ++ ":" ++ S ++ "-" ++ S ++ E ++ ":" ++ strand` with
`S = decimal(start)`, `E = decimal(end)`. -/
def mkKey (j1 : Junction) : String :=
  String.mk (j1.chrom.data ++ ':' :: decRepr j1.start ++ '-' ::
    (decRepr j1.start ++ decRepr j1.end_) ++ ':' :: [j1.strand])

/-- Embeds `JunctionsExtractor::add_junction` (lines 128-165): QC-filter the
candidate, look its key up, then either insert it as a new entry (fresh name,
`read_count = 1`) or merge it with the stored one (count bumped, name kept,
anchor extents widened, anchor flags ORed). Returns the updated map. -/
def add_junction (cfg : ExtractorConfig) (junctions_ : JunctionMap)
    (j : Junction) : JunctionMap :=
  let qc := junction_qc cfg j
  if qc.1 = false then junctions_
  else
    let j1 := qc.2
    let key := mkKey j1
    match mapFind junctions_ key with
    | none =>
      mapInsert junctions_ key
        { j1 with
          name := get_new_junction_name junctions_.length,
          read_count := 1,
          score := num_to_str 1 }
    | some j0 =>
      mapInsert junctions_ key
        { j1 with
          read_count := j0.read_count + 1,
          score := num_to_str (j0.read_count + 1),
          name := j0.name,
          thick_start :=
            if j0.thick_start < j1.thick_start then j0.thick_start
            else j1.thick_start,
          thick_end :=
            if j0.thick_end > j1.thick_end then j0.thick_end else j1.thick_end,
          has_left_min_anchor :=
            j1.has_left_min_anchor || j0.has_left_min_anchor,
          has_right_min_anchor :=
            j1.has_right_min_anchor || j0.has_right_min_anchor }

/-! ### The CIGAR walker (`parse_alignment_into_junctions`) -/

/-- One alignment record, at the interface the walker reads: chromosome name
(resolved through the header), 0-based leftmost position, resolved strand
character, and the CIGAR as (operation character, length) pairs. -/
structure AlnRecord where
  chrom : String
  pos : Nat
  strand : Char
  cigar : List (Char × Nat)

/-- State carried across the CIGAR walk: the in-progress builder `j1`, the
`started_junction` flag, and the junctions map being filled. -/
structure WalkState where
  j1 : Junction
  started_junction : Bool
  junctions_ : JunctionMap

/-- Embeds one iteration of the `switch` in
`parse_alignment_into_junctions` (lines 242-316), one CIGAR operation. -/
def stepCigarOp (cfg : ExtractorConfig) (s : WalkState) (op : Char)
    (len : Nat) : WalkState :=
  if op = 'N' then
    if s.started_junction = false then
      { s with
        j1 := { s.j1 with end_ := s.j1.start + len, thick_end := s.j1.start + len },
        started_junction := true }
    else
      { j1 := { s.j1 with
          thick_start := s.j1.end_,
          start := s.j1.thick_end,
          end_ := s.j1.thick_end + len,
          thick_end := s.j1.thick_end + len },
        started_junction := true,
        junctions_ := add_junction cfg s.junctions_ s.j1 }
  else if op = '=' ∨ op = 'M' then
    if s.started_junction = false then
      { s with j1 := { s.j1 with start := s.j1.start + len } }
    else
      { s with j1 := { s.j1 with thick_end := s.j1.thick_end + len } }
  else if op = 'D' ∨ op = 'X' then
    if s.started_junction = false then
      { s with
        j1 := { s.j1 with start := s.j1.start + len, thick_start := s.j1.start + len },
        started_junction := false }
    else
      { j1 := { s.j1 with
          start := s.j1.thick_end + len,
          thick_start := s.j1.thick_end + len },
        started_junction := false,
        junctions_ := add_junction cfg s.junctions_ s.j1 }
  else if op = 'I' ∨ op = 'S' then
    if s.started_junction = false then
      { s with
        j1 := { s.j1 with thick_start := s.j1.start },
        started_junction := false }
    else
      { j1 := { s.j1 with start := s.j1.thick_end, thick_start := s.j1.thick_end },
        started_junction := false,
        junctions_ := add_junction cfg s.junctions_ s.j1 }
  else
    s

/-- Embeds `JunctionsExtractor::parse_alignment_into_junctions`
(lines 217-325): fewer than two CIGAR operations contribute nothing;
otherwise the builder is initialised at the record position and the
operations are walked left to right, with a final commit when an intron is
still open at the end. -/
def parse_alignment_into_junctions (cfg : ExtractorConfig)
    (junctions_ : JunctionMap) (aln : AlnRecord) : JunctionMap :=
  if aln.cigar.length ≤ 1 then junctions_
  else
    let s0 : WalkState :=
      { j1 := { defaultJunction with
          chrom := aln.chrom, strand := aln.strand,
          start := aln.pos, thick_start := aln.pos },
        started_junction := false,
        junctions_ := junctions_ }
    let s := aln.cigar.foldl (fun s p => stepCigarOp cfg s p.1 p.2) s0
    if s.started_junction then add_junction cfg s.junctions_ s.j1
    else s.junctions_

/-! ### Positional-argument handling of `parse_options` -/

/-- Modelled from the spec: the `bam_` member is initialised to the sentinel
`"NA"` in the missing header, and §6 makes a missing positional
alignment-file argument a fatal argument error. This embeds lines 69-74 of
`parse_options` — the handling of the positional arguments remaining after
the `getopt` loop: consume the first as `bam_` if present, then fail when
arguments remain or `bam_` is still (or again) `"NA"`. -/
def parse_options_positionals (positional : List String) : Except String String :=
  let bam_ := match positional with
    | [] => "NA"
    | b :: _ => b
  if 1 < positional.length ∨ bam_ = "NA" then
    Except.error "\nError parsing inputs!"
  else
    Except.ok bam_

/-- Folding a whole list of candidates into the map, one `add_junction` call
per candidate; used to state properties of sequences of calls. -/
def addAll (cfg : ExtractorConfig) (st : JunctionMap) (js : List Junction) :
    JunctionMap :=
  js.foldl (add_junction cfg) st

/-! ### Concrete fixtures used by the example claims and witnesses -/

/-- Default thresholds of the tool: anchor 8, intron bounds [70, 500000]. -/
def cfgDefault : ExtractorConfig := ⟨8, 70, 500000⟩

/-- The single-intron candidate of the spec's worked example: a read at 1000
with [Match 20, Intron 100, Match 30]. -/
def jSingle : Junction :=
  { defaultJunction with
    chrom := "chr1", strand := '+', start := 1020,
    end_ := 1120, thick_start := 1000, thick_end := 1150 }

/-- The stored form of `jSingle` after a first insertion. -/
def j0Stored : Junction :=
  { jSingle with
    has_left_min_anchor := true, has_right_min_anchor := true,
    name := "JUNC00000001", read_count := 1, score := "1" }

/-- A one-entry store holding `j0Stored` under the key of `jSingle`. -/
def stStored : JunctionMap :=
  [(mkKey (junction_qc cfgDefault jSingle).2, j0Stored)]

/-- The multi-intron record of the spec's worked example. -/
def recC2 : AlnRecord :=
  ⟨"chr1", 0, '+', [('M', 10), ('N', 50), ('M', 5), ('N', 40), ('M', 10)]⟩

/-- The deletion-disqualification record of the spec's worked example. -/
def recC5 : AlnRecord :=
  ⟨"chr1", 0, '+', [('M', 10), ('D', 3), ('M', 10), ('N', 80), ('M', 10)]⟩

/-! ### Lemmas about the decimal rendering -/

lemma decReprCore_fuel : ∀ (f g n : Nat), n < f → n < g →
    decReprCore n f = decReprCore n g := by
  intro f
  induction f with
  | zero => intro g n hf; omega
  | succ f ih =>
    intro g n hf hg
    cases g with
    | zero => omega
    | succ g =>
      simp only [decReprCore]
      by_cases h10 : n < 10
      · simp [h10]
      · have hdiv : n / 10 < n := Nat.div_lt_self (by omega) (by omega)
        simp only [h10, if_false]
        rw [ih g (n / 10) (by omega) (by omega)]

lemma decRepr_eq (n : Nat) : decRepr n =
    if n < 10 then [digitChar n]
    else decRepr (n / 10) ++ [digitChar (n % 10)] := by
  have h0 : decRepr n = if n < 10 then [digitChar n]
      else decReprCore (n / 10) n ++ [digitChar (n % 10)] := rfl
  rw [h0]
  by_cases h10 : n < 10
  · simp [h10]
  · have hdiv : n / 10 < n := Nat.div_lt_self (by omega) (by omega)
    simp only [h10, if_false]
    rw [decReprCore_fuel n (n / 10 + 1) (n / 10) hdiv (by omega)]
    rfl

lemma decVal_append_digit (l : List Char) (c : Char) :
    decVal (l ++ [c]) = decVal l * 10 + (c.toNat - 48) := by
  simp [decVal, List.foldl_append]

lemma digitChar_toNat {n : Nat} (h : n < 10) : (digitChar n).toNat = 48 + n := by
  interval_cases n <;> decide

lemma decVal_decRepr (n : Nat) : decVal (decRepr n) = n := by
  induction n using Nat.strong_induction_on with
  | _ n ih =>
    rw [decRepr_eq]
    by_cases h10 : n < 10
    · simp [h10, decVal, digitChar_toNat h10]
    · have hdiv : n / 10 < n := Nat.div_lt_self (by omega) (by omega)
      simp only [h10, if_false, decVal_append_digit]
      rw [ih (n / 10) hdiv, digitChar_toNat (Nat.mod_lt n (by omega))]
      omega

lemma decRepr_injective {m n : Nat} (h : decRepr m = decRepr n) : m = n := by
  have hm := decVal_decRepr m
  rw [h, decVal_decRepr] at hm
  omega

lemma decRepr_digits {n : Nat} {c : Char} (h : c ∈ decRepr n) :
    48 ≤ c.toNat ∧ c.toNat ≤ 57 := by
  induction n using Nat.strong_induction_on with
  | _ n ih =>
    rw [decRepr_eq] at h
    by_cases h10 : n < 10
    · simp only [h10, if_true, List.mem_singleton] at h
      subst h
      rw [digitChar_toNat h10]
      omega
    · have hdiv : n / 10 < n := Nat.div_lt_self (by omega) (by omega)
      simp only [h10, if_false, List.mem_append, List.mem_singleton] at h
      rcases h with h | h
      · exact ih (n / 10) hdiv h
      · subst h
        rw [digitChar_toNat (Nat.mod_lt n (by omega))]
        omega

lemma colon_not_mem_decRepr (n : Nat) : ':' ∉ decRepr n := by
  intro h
  have h2 := decRepr_digits h
  have h3 : (':' : Char).toNat = 58 := rfl
  omega

lemma dash_not_mem_decRepr (n : Nat) : '-' ∉ decRepr n := by
  intro h
  have h2 := decRepr_digits h
  have h3 : ('-' : Char).toNat = 45 := rfl
  omega

/-! ### Lemmas about the junctions map -/

lemma mapFind_mapInsert_self (m : JunctionMap) (k : String) (v : Junction) :
    mapFind (mapInsert m k v) k = some v := by
  induction m with
  | nil => simp [mapInsert, mapFind]
  | cons p rest ih =>
    obtain ⟨k', v'⟩ := p
    by_cases h : k' = k
    · simp [mapInsert, mapFind, h]
    · simp [mapInsert, mapFind, h, ih]

lemma mapFind_mapInsert_ne (m : JunctionMap) {k k' : String} (v : Junction)
    (h : k ≠ k') : mapFind (mapInsert m k v) k' = mapFind m k' := by
  induction m with
  | nil => simp [mapInsert, mapFind, h]
  | cons p rest ih =>
    obtain ⟨k₀, v₀⟩ := p
    by_cases h0 : k₀ = k
    · subst h0
      simp [mapInsert, mapFind, h]
    · simp only [mapInsert, h0, if_false]
      by_cases h1 : k₀ = k'
      · simp [mapFind, h1]
      · simp [mapFind, h1, ih]

/-! ### Injectivity of the key construction -/

lemma last_sep_split {α : Type} {x : α} :
    ∀ {a a' b b' : List α}, a ++ x :: b = a' ++ x :: b' → x ∉ b → x ∉ b' →
      a = a' ∧ b = b' := by
  intro a
  induction a with
  | nil =>
    intro a' b b' h hb hb'
    cases a' with
    | nil => simpa using h
    | cons y t =>
      simp only [List.nil_append, List.cons_append, List.cons.injEq] at h
      exfalso
      apply hb
      rw [h.2]
      exact List.mem_append_right t (List.mem_cons_self x b')
  | cons z t ih =>
    intro a' b b' h hb hb'
    cases a' with
    | nil =>
      simp only [List.cons_append, List.nil_append, List.cons.injEq] at h
      exfalso
      apply hb'
      rw [← h.2]
      exact List.mem_append_right t (List.mem_cons_self x b)
    | cons z' t' =>
      simp only [List.cons_append, List.cons.injEq] at h
      obtain ⟨ht, hbb⟩ := ih h.2 hb hb'
      exact ⟨by rw [h.1, ht], hbb⟩

lemma first_sep_split {α : Type} {x : α} :
    ∀ {a a' b b' : List α}, a ++ x :: b = a' ++ x :: b' → x ∉ a → x ∉ a' →
      a = a' ∧ b = b' := by
  intro a
  induction a with
  | nil =>
    intro a' b b' h ha ha'
    cases a' with
    | nil => simpa using h
    | cons y t =>
      simp only [List.nil_append, List.cons_append, List.cons.injEq] at h
      exact absurd (by rw [h.1]; exact List.mem_cons_self y t) ha'
  | cons z t ih =>
    intro a' b b' h ha ha'
    cases a' with
    | nil =>
      simp only [List.cons_append, List.nil_append, List.cons.injEq] at h
      exact absurd (by rw [h.1]; exact List.mem_cons_self x t) ha
    | cons z' t' =>
      simp only [List.cons_append, List.cons.injEq] at h
      have ha2 : x ∉ t := fun hx => ha (List.mem_cons_of_mem z hx)
      have ha2' : x ∉ t' := fun hx => ha' (List.mem_cons_of_mem z' hx)
      obtain ⟨ht, hbb⟩ := ih h.2 ha2 ha2'
      exact ⟨by rw [h.1, ht], hbb⟩

lemma colon_not_mem_mid (s e : Nat) :
    ':' ∉ decRepr s ++ '-' :: (decRepr s ++ decRepr e) := by
  intro hm
  rcases List.mem_append.1 hm with hm | hm
  · exact colon_not_mem_decRepr _ hm
  · rcases List.mem_cons.1 hm with hm | hm
    · exact absurd hm (by decide)
    · rcases List.mem_append.1 hm with hm | hm
      · exact colon_not_mem_decRepr _ hm
      · exact colon_not_mem_decRepr _ hm

lemma mkKey_inj {j1 j2 : Junction} (h : mkKey j1 = mkKey j2) :
    j1.chrom = j2.chrom ∧ j1.start = j2.start ∧ j1.end_ = j2.end_ ∧
      j1.strand = j2.strand := by
  have hl := congrArg String.data h
  simp only [mkKey] at hl
  have regroup : ∀ (c : List Char) (s e : Nat) (x : Char),
      c ++ ':' :: decRepr s ++ '-' :: (decRepr s ++ decRepr e) ++ ':' :: [x]
        = (c ++ ':' :: (decRepr s ++ '-' :: (decRepr s ++ decRepr e)))
            ++ [':', x] := by
    intro c s e x
    simp [List.append_assoc]
  rw [regroup, regroup] at hl
  obtain ⟨hmid, htail⟩ := List.append_inj' hl rfl
  have hstrand : j1.strand = j2.strand := by
    simpa using htail
  obtain ⟨hc, hM⟩ := last_sep_split hmid (colon_not_mem_mid _ _)
    (colon_not_mem_mid _ _)
  obtain ⟨hS, hSE⟩ := first_sep_split hM (dash_not_mem_decRepr _)
    (dash_not_mem_decRepr _)
  have hstart : j1.start = j2.start := decRepr_injective hS
  have hE : decRepr j1.end_ = decRepr j2.end_ := by
    rw [hS] at hSE
    simpa using hSE
  exact ⟨String.ext hc, hstart, decRepr_injective hE, hstrand⟩

/-! ### Lemmas about `add_junction` -/

lemma junction_qc_fst_false_iff (cfg : ExtractorConfig) (j : Junction) :
    (junction_qc cfg j).1 = false ↔
      ((j.end_ : Int) - j.start < cfg.min_intron_length_ ∨
       (j.end_ : Int) - j.start > cfg.max_intron_length_) := by
  unfold junction_qc
  split <;> simp_all

lemma add_junction_reject {cfg : ExtractorConfig} {st : JunctionMap}
    {j : Junction} (h : (junction_qc cfg j).1 = false) :
    add_junction cfg st j = st := by
  simp [add_junction, h]

lemma add_junction_find_merge {cfg : ExtractorConfig} {st : JunctionMap}
    {j j0 : Junction} (hqc : (junction_qc cfg j).1 = true)
    (hfind : mapFind st (mkKey (junction_qc cfg j).2) = some j0) :
    mapFind (add_junction cfg st j) (mkKey (junction_qc cfg j).2) = some
      { (junction_qc cfg j).2 with
        read_count := j0.read_count + 1,
        score := num_to_str (j0.read_count + 1),
        name := j0.name,
        thick_start :=
          if j0.thick_start < (junction_qc cfg j).2.thick_start then
            j0.thick_start
          else (junction_qc cfg j).2.thick_start,
        thick_end :=
          if j0.thick_end > (junction_qc cfg j).2.thick_end then j0.thick_end
          else (junction_qc cfg j).2.thick_end,
        has_left_min_anchor :=
          (junction_qc cfg j).2.has_left_min_anchor || j0.has_left_min_anchor,
        has_right_min_anchor :=
          (junction_qc cfg j).2.has_right_min_anchor ||
            j0.has_right_min_anchor } := by
  unfold add_junction
  simp only [hqc, Bool.true_eq_false, if_false, hfind]
  exact mapFind_mapInsert_self _ _ _

lemma add_junction_find_ne {cfg : ExtractorConfig} {st : JunctionMap}
    {j : Junction} {k : String} (hk : mkKey (junction_qc cfg j).2 ≠ k) :
    mapFind (add_junction cfg st j) k = mapFind st k := by
  unfold add_junction
  by_cases hqc : (junction_qc cfg j).1 = false
  · simp [hqc]
  · simp only [hqc, if_false]
    cases hfind2 : mapFind st (mkKey (junction_qc cfg j).2) <;>
      simp [hfind2, mapFind_mapInsert_ne _ _ hk]

lemma add_junction_preserves {cfg : ExtractorConfig} {st : JunctionMap}
    {j j0 : Junction} {k : String} (hfind : mapFind st k = some j0) :
    ∃ j2, mapFind (add_junction cfg st j) k = some j2 ∧
      j2.thick_start ≤ j0.thick_start ∧ j0.thick_end ≤ j2.thick_end ∧
      j0.read_count ≤ j2.read_count ∧
      (j0.has_left_min_anchor = true → j2.has_left_min_anchor = true) ∧
      (j0.has_right_min_anchor = true → j2.has_right_min_anchor = true) := by
  by_cases hqc : (junction_qc cfg j).1 = false
  · exact ⟨j0, by rw [add_junction_reject hqc]; exact hfind, le_refl _,
      le_refl _, le_refl _, fun h => h, fun h => h⟩
  · have hqc' : (junction_qc cfg j).1 = true := by simpa using hqc
    by_cases hk : mkKey (junction_qc cfg j).2 = k
    · subst hk
      refine ⟨_, add_junction_find_merge hqc' hfind, ?_, ?_, ?_, ?_, ?_⟩
      · simp only []
        split <;> omega
      · simp only []
        split <;> omega
      · simp only []
        omega
      · simp only []
        intro h
        simp [h]
      · simp only []
        intro h
        simp [h]
    · exact ⟨j0, by rw [add_junction_find_ne hk]; exact hfind, le_refl _,
        le_refl _, le_refl _, fun h => h, fun h => h⟩

lemma addAll_preserves {cfg : ExtractorConfig} :
    ∀ (js : List Junction) (st : JunctionMap) (k : String) (j0 : Junction),
      mapFind st k = some j0 →
      ∃ j2, mapFind (addAll cfg st js) k = some j2 ∧
        j2.thick_start ≤ j0.thick_start ∧ j0.thick_end ≤ j2.thick_end ∧
        j0.read_count ≤ j2.read_count ∧
        (j0.has_left_min_anchor = true → j2.has_left_min_anchor = true) ∧
        (j0.has_right_min_anchor = true → j2.has_right_min_anchor = true) := by
  intro js
  induction js with
  | nil =>
    exact fun st k j0 h => ⟨j0, h, le_refl _, le_refl _, le_refl _,
      fun h => h, fun h => h⟩
  | cons j rest ih =>
    intro st k j0 h
    obtain ⟨j1, h1, p1, p2, p3, p4, p5⟩ := add_junction_preserves (j := j) h
    obtain ⟨j2, h2, q1, q2, q3, q4, q5⟩ := ih (add_junction cfg st j) k j1 h1
    exact ⟨j2, h2, le_trans q1 p1, le_trans p2 q2, le_trans p3 q3,
      fun h => q4 (p4 h), fun h => q5 (p5 h)⟩

/-! ### Claim theorems -/

/-- C1: while walking a record, an Intron operation of length `L` met with a
junction already open first commits the open builder to the store, then
continues with a new open builder whose `thick_start` is the previous
builder's `end`, whose `start` is the previous builder's `thick_end`, whose
`end` is that `start + L`, and whose `thick_end` equals that `end`; the
junction remains open. -/
theorem claim_C1 (cfg : ExtractorConfig) (st : JunctionMap) (j : Junction)
    (L : Nat) :
    (stepCigarOp cfg ⟨j, true, st⟩ 'N' L).junctions_ = add_junction cfg st j ∧
    (stepCigarOp cfg ⟨j, true, st⟩ 'N' L).j1.thick_start = j.end_ ∧
    (stepCigarOp cfg ⟨j, true, st⟩ 'N' L).j1.start = j.thick_end ∧
    (stepCigarOp cfg ⟨j, true, st⟩ 'N' L).j1.end_ =
      (stepCigarOp cfg ⟨j, true, st⟩ 'N' L).j1.start + L ∧
    (stepCigarOp cfg ⟨j, true, st⟩ 'N' L).j1.thick_end =
      (stepCigarOp cfg ⟨j, true, st⟩ 'N' L).j1.end_ ∧
    (stepCigarOp cfg ⟨j, true, st⟩ 'N' L).started_junction = true := by
  simp [stepCigarOp]

/-- C7: the store key computed by `add_junction` is injective on the tuple
(chrom, start, end, strand): keys are equal exactly when the tuples are. -/
theorem claim_C7 (j1 j2 : Junction) :
    mkKey j1 = mkKey j2 ↔
      (j1.chrom = j2.chrom ∧ j1.start = j2.start ∧ j1.end_ = j2.end_ ∧
        j1.strand = j2.strand) := by
  constructor
  · exact mkKey_inj
  · rintro ⟨h1, h2, h3, h4⟩
    simp [mkKey, h1, h2, h3, h4]

/-- C8: a candidate whose intron length is outside the configured bounds
leaves the store completely unchanged — `add_junction` returns it as is, and
in particular no entry or name ordinal is consumed. -/
theorem claim_C8 (cfg : ExtractorConfig) (st : JunctionMap) (j : Junction)
    (h : (j.end_ : Int) - j.start < cfg.min_intron_length_ ∨
         (j.end_ : Int) - j.start > cfg.max_intron_length_) :
    add_junction cfg st j = st := by
  apply add_junction_reject
  exact (junction_qc_fst_false_iff cfg j).2 h

/-- C8 witness: a candidate of intron length 10 under minimum intron length
70 is silently dropped from an empty store. -/
theorem claim_C8_witness :
    ((({ defaultJunction with start := 100, end_ := 110 } : Junction).end_ : Int)
        - ({ defaultJunction with start := 100, end_ := 110 } : Junction).start
        < (⟨8, 70, 500000⟩ : ExtractorConfig).min_intron_length_ ∨
      (({ defaultJunction with start := 100, end_ := 110 } : Junction).end_ : Int)
        - ({ defaultJunction with start := 100, end_ := 110 } : Junction).start
        > (⟨8, 70, 500000⟩ : ExtractorConfig).max_intron_length_) ∧
    add_junction ⟨8, 70, 500000⟩ []
      { defaultJunction with start := 100, end_ := 110 } = [] :=
  ⟨by decide, claim_C8 _ _ _ (by decide)⟩

/-- C9: a record with fewer than two CIGAR operations contributes no
junctions — `parse_alignment_into_junctions` returns the store unchanged. -/
theorem claim_C9 (cfg : ExtractorConfig) (st : JunctionMap) (aln : AlnRecord)
    (h : aln.cigar.length < 2) :
    parse_alignment_into_junctions cfg st aln = st := by
  unfold parse_alignment_into_junctions
  rw [if_pos (by omega)]

/-- C9 witness: a record whose CIGAR is a single Match of length 1000 yields
zero candidates. -/
theorem claim_C9_witness :
    (AlnRecord.cigar ⟨"chr1", 0, '+', [('M', 1000)]⟩).length < 2 ∧
    parse_alignment_into_junctions ⟨8, 70, 500000⟩ []
      ⟨"chr1", 0, '+', [('M', 1000)]⟩ = [] :=
  ⟨by decide, claim_C9 _ _ _ (by decide)⟩

/-- C10: `parse_options` treats the positional alignment-file argument "NA"
exactly like a missing argument: both hit the fatal argument error, because
"NA" is also the unset sentinel for the filename. -/
theorem claim_C10 :
    parse_options_positionals ["NA"] = Except.error "\nError parsing inputs!" ∧
    parse_options_positionals [] = parse_options_positionals ["NA"] := by
  constructor <;> rfl

/-- C2: the record [Match 10, Intron 50, Match 5, Intron 40, Match 10] at
position 0, with minimum intron length 20, maximum 500000 and minimum anchor
length 8, puts exactly two candidates in the store; the second one's left
anchor is 5 so its left-anchor flag is false, while its right anchor is 10 so
its right-anchor flag is true. -/
theorem claim_C2 :
    (parse_alignment_into_junctions ⟨8, 20, 500000⟩ [] recC2).length = 2 ∧
    (parse_alignment_into_junctions ⟨8, 20, 500000⟩ [] recC2).map
      (fun p => (p.2.start - p.2.thick_start, p.2.has_left_min_anchor,
        p.2.has_right_min_anchor, p.2.thick_end - p.2.end_))
      = [(10, true, false, 5), (5, false, true, 10)] := by
  decide

/-- C3: merging a QC-accepted candidate into an existing key bumps the read
count by one, renders the new count as the score, keeps the stored name (no
fresh name, no overwrite), takes the min of the thick starts, the max of the
thick ends, and ORs each anchor flag of the existing and incoming entries. -/
theorem claim_C3 (cfg : ExtractorConfig) (st : JunctionMap) (j j0 : Junction)
    (hqc : (junction_qc cfg j).1 = true)
    (hfind : mapFind st (mkKey (junction_qc cfg j).2) = some j0) :
    mapFind (add_junction cfg st j) (mkKey (junction_qc cfg j).2) = some
      { (junction_qc cfg j).2 with
        read_count := j0.read_count + 1,
        score := num_to_str (j0.read_count + 1),
        name := j0.name,
        thick_start := min j0.thick_start (junction_qc cfg j).2.thick_start,
        thick_end := max j0.thick_end (junction_qc cfg j).2.thick_end,
        has_left_min_anchor :=
          j0.has_left_min_anchor || (junction_qc cfg j).2.has_left_min_anchor,
        has_right_min_anchor :=
          j0.has_right_min_anchor ||
            (junction_qc cfg j).2.has_right_min_anchor } := by
  have e1 : (if j0.thick_start < (junction_qc cfg j).2.thick_start then
      j0.thick_start else (junction_qc cfg j).2.thick_start)
      = min j0.thick_start (junction_qc cfg j).2.thick_start := by
    split <;> omega
  have e2 : (if j0.thick_end > (junction_qc cfg j).2.thick_end then
      j0.thick_end else (junction_qc cfg j).2.thick_end)
      = max j0.thick_end (junction_qc cfg j).2.thick_end := by
    split <;> omega
  rw [add_junction_find_merge hqc hfind, e1, e2,
    Bool.or_comm (junction_qc cfg j).2.has_left_min_anchor
      j0.has_left_min_anchor,
    Bool.or_comm (junction_qc cfg j).2.has_right_min_anchor
      j0.has_right_min_anchor]

/-- C3 witness: re-adding the single-intron candidate over a store already
holding it yields read count 2, score "2", the old name and merged anchors. -/
theorem claim_C3_witness :
    ((junction_qc cfgDefault jSingle).1 = true ∧
     mapFind stStored (mkKey (junction_qc cfgDefault jSingle).2)
       = some j0Stored) ∧
    mapFind (add_junction cfgDefault stStored jSingle)
      (mkKey (junction_qc cfgDefault jSingle).2) = some
      { (junction_qc cfgDefault jSingle).2 with
        read_count := j0Stored.read_count + 1,
        score := num_to_str (j0Stored.read_count + 1),
        name := j0Stored.name,
        thick_start :=
          min j0Stored.thick_start (junction_qc cfgDefault jSingle).2.thick_start,
        thick_end :=
          max j0Stored.thick_end (junction_qc cfgDefault jSingle).2.thick_end,
        has_left_min_anchor :=
          j0Stored.has_left_min_anchor ||
            (junction_qc cfgDefault jSingle).2.has_left_min_anchor,
        has_right_min_anchor :=
          j0Stored.has_right_min_anchor ||
            (junction_qc cfgDefault jSingle).2.has_right_min_anchor } :=
  ⟨⟨by decide, by decide⟩,
    claim_C3 cfgDefault stStored jSingle j0Stored (by decide) (by decide)⟩

/-- C4: `junction_qc` rejects a candidate exactly when its intron length is
below the minimum or above the maximum intron length; on every accepted
candidate (whose flags, as produced by the walker, start out false) it sets
each anchor flag to whether the corresponding anchor meets the minimum anchor
length, each side independently. -/
theorem claim_C4 (cfg : ExtractorConfig) (j : Junction)
    (hL : j.has_left_min_anchor = false)
    (hR : j.has_right_min_anchor = false) :
    ((junction_qc cfg j).1 = false ↔
      ((j.end_ : Int) - j.start < cfg.min_intron_length_ ∨
       (j.end_ : Int) - j.start > cfg.max_intron_length_)) ∧
    ((junction_qc cfg j).1 = true →
      (junction_qc cfg j).2.has_left_min_anchor =
        decide ((j.start : Int) - j.thick_start ≥ cfg.min_anchor_length_) ∧
      (junction_qc cfg j).2.has_right_min_anchor =
        decide ((j.thick_end : Int) - j.end_ ≥ cfg.min_anchor_length_)) := by
  refine ⟨junction_qc_fst_false_iff cfg j, ?_⟩
  intro hpass
  have hcond : ¬((j.end_ : Int) - j.start < cfg.min_intron_length_ ∨
      (j.end_ : Int) - j.start > cfg.max_intron_length_) := by
    intro hc
    rw [(junction_qc_fst_false_iff cfg j).2 hc] at hpass
    exact Bool.false_ne_true hpass
  unfold junction_qc
  rw [if_neg hcond]
  constructor
  · simp only [hL]
    by_cases hge : (j.start : Int) - (j.thick_start : Int) ≥ cfg.min_anchor_length_
    · simp [hge]
    · simp [hge]
  · simp only [hR]
    by_cases hge : (j.thick_end : Int) - (j.end_ : Int) ≥ cfg.min_anchor_length_
    · simp [hge]
    · simp [hge]

/-- C4 witness: the single-intron candidate under the default thresholds is
accepted and gets both flags true (anchors 20 and 30 against minimum 8). -/
theorem claim_C4_witness :
    (jSingle.has_left_min_anchor = false ∧
     jSingle.has_right_min_anchor = false) ∧
    (((junction_qc cfgDefault jSingle).1 = false ↔
      ((jSingle.end_ : Int) - jSingle.start < cfgDefault.min_intron_length_ ∨
       (jSingle.end_ : Int) - jSingle.start > cfgDefault.max_intron_length_)) ∧
    ((junction_qc cfgDefault jSingle).1 = true →
      (junction_qc cfgDefault jSingle).2.has_left_min_anchor =
        decide ((jSingle.start : Int) - jSingle.thick_start ≥
          cfgDefault.min_anchor_length_) ∧
      (junction_qc cfgDefault jSingle).2.has_right_min_anchor =
        decide ((jSingle.thick_end : Int) - jSingle.end_ ≥
          cfgDefault.min_anchor_length_))) :=
  ⟨⟨rfl, rfl⟩, claim_C4 cfgDefault jSingle rfl rfl⟩

/-- C5: a Deletion or Mismatch of length `L` outside an open junction
advances `start` by `L` and resets `thick_start` to the new `start`; inside
an open junction it commits the builder and resumes closed with
`start = thick_end + L` and `thick_start = start`. On
[Match 10, Deletion 3, Match 10, Intron 80, Match 10] the committed
candidate's left anchor is the 10 bases after the deletion, not 20. -/
theorem claim_C5 (cfg : ExtractorConfig) :
    (∀ (st : JunctionMap) (j : Junction) (L : Nat),
      stepCigarOp cfg ⟨j, false, st⟩ 'D' L =
        ⟨{ j with start := j.start + L, thick_start := j.start + L },
          false, st⟩) ∧
    (∀ (st : JunctionMap) (j : Junction) (L : Nat),
      stepCigarOp cfg ⟨j, false, st⟩ 'X' L =
        ⟨{ j with start := j.start + L, thick_start := j.start + L },
          false, st⟩) ∧
    (∀ (st : JunctionMap) (j : Junction) (L : Nat),
      stepCigarOp cfg ⟨j, true, st⟩ 'D' L =
        ⟨{ j with start := j.thick_end + L, thick_start := j.thick_end + L },
          false, add_junction cfg st j⟩) ∧
    (∀ (st : JunctionMap) (j : Junction) (L : Nat),
      stepCigarOp cfg ⟨j, true, st⟩ 'X' L =
        ⟨{ j with start := j.thick_end + L, thick_start := j.thick_end + L },
          false, add_junction cfg st j⟩) ∧
    (parse_alignment_into_junctions cfgDefault [] recC5).map
      (fun p => p.2.start - p.2.thick_start) = [10] := by
  refine ⟨?_, ?_, ?_, ?_, by decide⟩ <;>
    (intro st j L; simp [stepCigarOp])

/-- C6: one merging call bumps the stored read count by exactly one, never
raises `thick_start`, never lowers `thick_end` and never clears an anchor
flag; hence across any sequence of `add_junction` calls the stored entry at a
key has non-increasing `thick_start`, non-decreasing `thick_end`,
non-decreasing read count and monotone anchor flags. -/
theorem claim_C6 (cfg : ExtractorConfig) :
    (∀ (st : JunctionMap) (j j0 : Junction),
      (junction_qc cfg j).1 = true →
      mapFind st (mkKey (junction_qc cfg j).2) = some j0 →
      ∃ j2, mapFind (add_junction cfg st j) (mkKey (junction_qc cfg j).2)
          = some j2 ∧
        j2.read_count = j0.read_count + 1 ∧
        j2.thick_start ≤ j0.thick_start ∧ j0.thick_end ≤ j2.thick_end ∧
        (j0.has_left_min_anchor = true → j2.has_left_min_anchor = true) ∧
        (j0.has_right_min_anchor = true → j2.has_right_min_anchor = true)) ∧
    (∀ (js : List Junction) (st : JunctionMap) (k : String) (j0 : Junction),
      mapFind st k = some j0 →
      ∃ j2, mapFind (addAll cfg st js) k = some j2 ∧
        j2.thick_start ≤ j0.thick_start ∧ j0.thick_end ≤ j2.thick_end ∧
        j0.read_count ≤ j2.read_count ∧
        (j0.has_left_min_anchor = true → j2.has_left_min_anchor = true) ∧
        (j0.has_right_min_anchor = true → j2.has_right_min_anchor = true)) := by
  constructor
  · intro st j j0 hqc hfind
    refine ⟨_, add_junction_find_merge hqc hfind, rfl, ?_, ?_, ?_, ?_⟩
    · simp only []
      split <;> omega
    · simp only []
      split <;> omega
    · simp only []
      intro h
      simp [h]
    · simp only []
      intro h
      simp [h]
  · exact addAll_preserves

/-- C6 witness: one more observation of the single-intron candidate over the
one-entry store preserves the name and widens nothing, with read count 2. -/
theorem claim_C6_witness :
    ((junction_qc cfgDefault jSingle).1 = true ∧
     mapFind stStored (mkKey (junction_qc cfgDefault jSingle).2)
       = some j0Stored) ∧
    (∃ j2, mapFind (add_junction cfgDefault stStored jSingle)
        (mkKey (junction_qc cfgDefault jSingle).2) = some j2 ∧
      j2.read_count = j0Stored.read_count + 1 ∧
      j2.thick_start ≤ j0Stored.thick_start ∧
      j0Stored.thick_end ≤ j2.thick_end ∧
      (j0Stored.has_left_min_anchor = true → j2.has_left_min_anchor = true) ∧
      (j0Stored.has_right_min_anchor = true →
        j2.has_right_min_anchor = true)) ∧
    (∃ j2, mapFind (addAll cfgDefault stStored [jSingle])
        (mkKey (junction_qc cfgDefault jSingle).2) = some j2 ∧
      j2.thick_start ≤ j0Stored.thick_start ∧
      j0Stored.thick_end ≤ j2.thick_end ∧
      j0Stored.read_count ≤ j2.read_count ∧
      (j0Stored.has_left_min_anchor = true → j2.has_left_min_anchor = true) ∧
      (j0Stored.has_right_min_anchor = true →
        j2.has_right_min_anchor = true)) :=
  ⟨⟨by decide, by decide⟩,
    (claim_C6 cfgDefault).1 stStored jSingle j0Stored (by decide) (by decide),
    (claim_C6 cfgDefault).2 [jSingle] stStored
      (mkKey (junction_qc cfgDefault jSingle).2) j0Stored (by decide)⟩

end Regtools
